import Mathlib

/-!
Verification of the obsidian-copy-path plugin (src/main.ts) against its
natural-language specification.

The embedding models the plugin's pure data and its user-visible effects:

* `CopyPathSettings`, `DEFAULT_SETTINGS` — the settings record (main.ts 13-21).
* `TAbstractFile` — the host's entry type: a file, a folder (carrying its
  children, which the plugin never visits), or an entry of neither kind
  (main.ts imports `TFile`/`TFolder` and tests with `instanceof`).
* `collectAllPaths`, `formatPaths` — the pure path-collection and
  formatting functions (main.ts 157-178).
* `Effect` — the observable side effects a command emits: `Notice`
  creations, calls to `navigator.clipboard.writeText`, and
  `console.error` logging.  Each command is embedded as a function from
  its inputs (settings, host state, and whether the asynchronous
  clipboard write resolves or rejects) to the list of effects it emits,
  in program order (main.ts 183-206).
* `loadSettings` — the `Object.assign({}, DEFAULT_SETTINGS, data)` merge
  (main.ts 88-90), with the persisted blob modelled as a record of
  optional fields.
* A stateful variant of each command threading the in-memory
  `PluginState`, used for the frame property: the commands read
  `this.settings` but never assign to it; only the two settings-tab
  `onChange` handlers do (main.ts 224-248).

Characters that the concrete syntax of this file avoids spelling as
literals are written with `Char.ofNat`: 39 is the single quote, 34 the
double quote, 44 the comma, 32 the space.
-/

/-- Single-quote character `'` (code point 39). -/
def singleQuoteChar : Char := Char.ofNat 39

/-- Double-quote character (code point 34). -/
def doubleQuoteChar : Char := Char.ofNat 34

/-- Comma character (code point 44). -/
def commaChar : Char := Char.ofNat 44

/-- Space character (code point 32). -/
def spaceChar : Char := Char.ofNat 32

/-- The `quoteStyle` enumeration: `"single" | "double"` (main.ts 15). -/
inductive QuoteStyle where
  | single
  | double
deriving DecidableEq, Repr

/-- The `CopyPathSettings` interface (main.ts 13-16). -/
structure CopyPathSettings where
  showNotice : Bool
  quoteStyle : QuoteStyle
deriving DecidableEq, Repr

/-- `DEFAULT_SETTINGS` (main.ts 18-21). -/
def DEFAULT_SETTINGS : CopyPathSettings :=
  { showNotice := true, quoteStyle := QuoteStyle.single }

/-- A host filesystem entry (`TAbstractFile`): a `TFile`, a `TFolder`
(which owns a list of children the plugin never traverses), or an entry
of neither concrete kind.  Each carries its `path` string. -/
inductive TAbstractFile where
  | file (path : String)
  | folder (path : String) (children : List TAbstractFile)
  | other (path : String)
deriving Repr

/-- `collectAllPaths` (main.ts 157-170): push the `path` of each `TFile`
or `TFolder` entry, in input order; entries of neither kind are skipped;
a folder contributes only its own path. -/
def collectAllPaths : List TAbstractFile → List String
  | [] => []
  | TAbstractFile.file p :: rest => p :: collectAllPaths rest
  | TAbstractFile.folder p _ :: rest => p :: collectAllPaths rest
  | TAbstractFile.other _ :: rest => collectAllPaths rest

/-- The quote string chosen by
`this.settings.quoteStyle === "single" ? "'" : '"'` (main.ts 176). -/
def quoteFor (qs : QuoteStyle) : String :=
  if qs = QuoteStyle.single then String.singleton singleQuoteChar
  else String.singleton doubleQuoteChar

/-- The quote character underlying `quoteFor`. -/
def quoteCharOf (qs : QuoteStyle) : Char :=
  if qs = QuoteStyle.single then singleQuoteChar else doubleQuoteChar

/-- `formatPaths` (main.ts 175-178):
`paths.map((p) => quote + p + quote).join(", ")`. -/
def formatPaths (s : CopyPathSettings) (paths : List String) : String :=
  let quote : String := quoteFor s.quoteStyle
  String.intercalate ", " (paths.map (fun p => quote ++ p ++ quote))

theorem quoteFor_data (qs : QuoteStyle) :
    (quoteFor qs).data = [quoteCharOf qs] := by
  cases qs <;> rfl

theorem intercalate_go_data (sep : String) (l : List String) (acc : String) :
    (String.intercalate.go acc sep l).data =
      acc.data ++ (l.map (fun a => sep.data ++ a.data)).flatten := by
  induction l generalizing acc with
  | nil => simp [String.intercalate.go]
  | cons a as ih =>
      show (String.intercalate.go (acc ++ sep ++ a) sep as).data = _
      rw [ih]
      simp [List.append_assoc]

theorem list_intercalate_cons {α : Type} (sep x : List α)
    (xs : List (List α)) (h : xs ≠ []) :
    List.intercalate sep (x :: xs) = x ++ sep ++ List.intercalate sep xs := by
  cases xs with
  | nil => exact absurd rfl h
  | cons y ys => simp [List.intercalate, List.intersperse, List.append_assoc]

theorem intercalate_data (sep : String) (l : List String) :
    (String.intercalate sep l).data =
      List.intercalate sep.data (l.map String.data) := by
  cases l with
  | nil => rfl
  | cons a as =>
      show (String.intercalate.go a sep as).data = _
      rw [intercalate_go_data]
      induction as generalizing a with
      | nil => simp [List.intercalate, List.intersperse]
      | cons b bs ih =>
          rw [List.map_cons, List.map_cons,
            list_intercalate_cons _ _ _ (by simp), ← ih b]
          simp [List.append_assoc]

theorem comma_space_data : (", ").data = [commaChar, spaceChar] := by decide

theorem formatPaths_data (s : CopyPathSettings) (paths : List String) :
    (formatPaths s paths).data =
      List.intercalate [commaChar, spaceChar]
        (paths.map (fun p => quoteCharOf s.quoteStyle :: p.data ++ [quoteCharOf s.quoteStyle])) := by
  unfold formatPaths
  rw [intercalate_data, comma_space_data, List.map_map]
  refine congrArg _ (List.map_congr_left fun p hp => ?_)
  simp [Function.comp, quoteFor_data]

/-- C1: For every non-empty sequence of path strings and every configured
`quoteStyle`, `formatPaths` returns exactly each path wrapped in the quote
character selected by the quote style — the single-quote character
(code 39) for `single`, the double-quote character (code 34) for
`double` — joined by the two-character separator comma-space, with the
same quote character used for every entry of the invocation. -/
theorem formatPaths_quotes_and_joins (s : CopyPathSettings)
    (paths : List String) (h : paths ≠ []) :
    (formatPaths s paths).data =
      List.intercalate [commaChar, spaceChar]
        (paths.map (fun p => quoteCharOf s.quoteStyle :: p.data ++ [quoteCharOf s.quoteStyle]))
    ∧ quoteCharOf QuoteStyle.single = Char.ofNat 39
    ∧ quoteCharOf QuoteStyle.double = Char.ofNat 34 :=
  ⟨formatPaths_data s paths, rfl, rfl⟩

theorem formatPaths_quotes_and_joins_witness :
    (formatPaths { showNotice := true, quoteStyle := QuoteStyle.single }
        ["a/b.md", "c/d.md"]).data =
      List.intercalate [commaChar, spaceChar]
        ((["a/b.md", "c/d.md"] : List String).map
          (fun p => quoteCharOf QuoteStyle.single :: p.data ++ [quoteCharOf QuoteStyle.single])) :=
  (formatPaths_quotes_and_joins
    { showNotice := true, quoteStyle := QuoteStyle.single }
    ["a/b.md", "c/d.md"] (by decide)).1

/-- An observable side effect of a command: creating a `Notice` with the
given message, calling `navigator.clipboard.writeText` with the given
text, or logging the caught error with `console.error` (main.ts 183-206). -/
inductive Effect where
  | notice (msg : String)
  | clipboardWrite (text : String)
  | logError
deriving DecidableEq, Repr

/-- The in-memory plugin state: the mutable `settings` field of the
plugin object (main.ts 24). -/
structure PluginState where
  settings : CopyPathSettings
deriving DecidableEq, Repr

/-- `copyPathsToClipboard` (main.ts 183-206), threading the plugin state
and emitting its effects in program order.  `clipOk` tells whether the
awaited `navigator.clipboard.writeText` promise resolves (`true`) or
rejects (`false`); on rejection the `catch` block always shows the
failure notice and logs the error. -/
def copyPathsToClipboardS (st : PluginState) (clipOk : Bool)
    (files : List TAbstractFile) : List Effect × PluginState :=
  let paths := collectAllPaths files
  if paths.length = 0 then
    ([Effect.notice "No paths to copy"], st)
  else
    let formattedPaths := formatPaths st.settings paths
    if clipOk then
      (Effect.clipboardWrite formattedPaths ::
        (if st.settings.showNotice then
          [Effect.notice
            (if paths.length = 1 then "Path copied"
             else toString paths.length ++ " paths copied")]
         else []), st)
    else
      ([Effect.clipboardWrite formattedPaths,
        Effect.notice "Failed to copy to clipboard", Effect.logError], st)

/-- The effects of `copyPathsToClipboard`, for a given settings value. -/
def copyPathsToClipboard (s : CopyPathSettings) (clipOk : Bool)
    (files : List TAbstractFile) : List Effect :=
  (copyPathsToClipboardS { settings := s } clipOk files).1

/-- `copyActiveFilePath` (main.ts 99-106), with `activeFile` the result
of `this.app.workspace.getActiveFile()`: the path of the focused file,
or `none` when no file is focused. -/
def copyActiveFilePathS (st : PluginState) (clipOk : Bool)
    (activeFile : Option String) : List Effect × PluginState :=
  match activeFile with
  | some p => copyPathsToClipboardS st clipOk [TAbstractFile.file p]
  | none => ([Effect.notice "No active file"], st)

/-- The effects of `copyActiveFilePath`, for a given settings value. -/
def copyActiveFilePath (s : CopyPathSettings) (clipOk : Bool)
    (activeFile : Option String) : List Effect :=
  (copyActiveFilePathS { settings := s } clipOk activeFile).1

/-- An entry of the file explorer's internal `fileItems` map.
`isSelected` is the result of the defensive chain
`item.selfEl?.classList?.contains("is-selected")` (main.ts 140); it is
`false` whenever `selfEl` or `classList` is absent. -/
structure FileItem where
  isSelected : Bool
deriving DecidableEq, Repr

/-- The file-explorer view, accessed as `any` (main.ts 133).
`fileItems` is `none` when the view lacks the expected `fileItems`
property (main.ts 136), otherwise the entries of the map in
`Object.entries` order. -/
structure ExplorerView where
  fileItems : Option (List (String × FileItem))
deriving DecidableEq, Repr

/-- The loop body of `getSelectedFilesFromExplorer` (main.ts 139-146):
for each `(path, item)` with `isSelected`, push the entry that
`this.app.vault.getAbstractFileByPath(path)` resolves (skipping `null`
resolutions). -/
def selectedFromItems (vault : String → Option TAbstractFile) :
    List (String × FileItem) → List TAbstractFile
  | [] => []
  | (path, item) :: rest =>
    if item.isSelected then
      match vault path with
      | some file => file :: selectedFromItems vault rest
      | none => selectedFromItems vault rest
    else
      selectedFromItems vault rest

/-- `getSelectedFilesFromExplorer` (main.ts 126-152): `explorer` is the
first leaf of type "file-explorer" (`none` when there is none), `vault`
is `getAbstractFileByPath`. -/
def getSelectedFilesFromExplorer (explorer : Option ExplorerView)
    (vault : String → Option TAbstractFile) : List TAbstractFile :=
  match explorer with
  | none => []
  | some explorerView =>
    match explorerView.fileItems with
    | some items => selectedFromItems vault items
    | none => []

/-- `copySelectedFilesPaths` (main.ts 111-121). -/
def copySelectedFilesPathsS (st : PluginState) (clipOk : Bool)
    (explorer : Option ExplorerView)
    (vault : String → Option TAbstractFile)
    (activeFile : Option String) : List Effect × PluginState :=
  let selectedFiles := getSelectedFilesFromExplorer explorer vault
  if selectedFiles.length > 0 then
    copyPathsToClipboardS st clipOk selectedFiles
  else
    copyActiveFilePathS st clipOk activeFile

/-- The effects of `copySelectedFilesPaths`, for a given settings value. -/
def copySelectedFilesPaths (s : CopyPathSettings) (clipOk : Bool)
    (explorer : Option ExplorerView)
    (vault : String → Option TAbstractFile)
    (activeFile : Option String) : List Effect :=
  (copySelectedFilesPathsS { settings := s } clipOk explorer vault activeFile).1

/-- The persisted settings blob returned by `loadData()`: a record whose
fields may each be missing, or `none` for the whole blob when nothing
was ever saved. -/
structure StoredData where
  showNotice : Option Bool
  quoteStyle : Option QuoteStyle
deriving DecidableEq, Repr

/-- `loadSettings` (main.ts 88-90):
`Object.assign({}, DEFAULT_SETTINGS, await this.loadData())` — each field
present in the stored blob overrides the default, each missing field
keeps its default, and a `null` blob leaves all defaults. -/
def loadSettings (stored : Option StoredData) : CopyPathSettings :=
  match stored with
  | none => DEFAULT_SETTINGS
  | some data =>
    { showNotice := data.showNotice.getD DEFAULT_SETTINGS.showNotice,
      quoteStyle := data.quoteStyle.getD DEFAULT_SETTINGS.quoteStyle }

/-- The settings-tab toggle handler for "Show notification"
(main.ts 230-233): writes `showNotice` and persists. -/
def showNoticeOnChange (st : PluginState) (value : Bool) : PluginState :=
  { st with settings := { st.settings with showNotice := value } }

/-- The settings-tab dropdown handler for "Quote style"
(main.ts 244-247): writes `quoteStyle` and persists. -/
def quoteStyleOnChange (st : PluginState) (value : QuoteStyle) : PluginState :=
  { st with settings := { st.settings with quoteStyle := value } }

theorem copyPathsToClipboardS_snd (st : PluginState) (clipOk : Bool)
    (files : List TAbstractFile) :
    (copyPathsToClipboardS st clipOk files).2 = st := by
  unfold copyPathsToClipboardS
  by_cases h : (collectAllPaths files).length = 0 <;> cases clipOk <;> simp [h]

theorem copyActiveFilePathS_snd (st : PluginState) (clipOk : Bool)
    (activeFile : Option String) :
    (copyActiveFilePathS st clipOk activeFile).2 = st := by
  cases activeFile <;> simp [copyActiveFilePathS, copyPathsToClipboardS_snd]

/-- C3: `collectAllPaths` returns the path strings of the file and folder
entries verbatim, in input order, with no deduplication; a folder entry
contributes only its own path, never its children's. -/
theorem collectAllPaths_verbatim_in_order (items : List TAbstractFile) :
    collectAllPaths items =
      items.filterMap (fun item =>
        match item with
        | TAbstractFile.file p => some p
        | TAbstractFile.folder p _ => some p
        | TAbstractFile.other _ => none) ∧
    (∀ (p : String) (children : List TAbstractFile),
      collectAllPaths [TAbstractFile.folder p children] = [p]) := by
  constructor
  · induction items with
    | nil => rfl
    | cons item rest ih =>
        cases item <;> simp [collectAllPaths, List.filterMap_cons, ih]
  · intro p children
    rfl

/-- C2: if `collectAllPaths` resolves an empty sequence then
`copyPathsToClipboard` emits exactly the "No paths to copy" notice — in
particular it performs no clipboard write — and returns normally
(the embedding is a total function). -/
theorem copyPathsToClipboard_empty_input (s : CopyPathSettings)
    (clipOk : Bool) (files : List TAbstractFile)
    (h : collectAllPaths files = []) :
    copyPathsToClipboard s clipOk files = [Effect.notice "No paths to copy"] ∧
    ∀ t, Effect.clipboardWrite t ∉ copyPathsToClipboard s clipOk files := by
  have hr : copyPathsToClipboard s clipOk files = [Effect.notice "No paths to copy"] := by
    unfold copyPathsToClipboard copyPathsToClipboardS
    simp [h]
  refine ⟨hr, fun t => ?_⟩
  rw [hr]
  simp

theorem copyPathsToClipboard_empty_input_witness :
    copyPathsToClipboard DEFAULT_SETTINGS true [TAbstractFile.other "x"] =
      [Effect.notice "No paths to copy"] :=
  (copyPathsToClipboard_empty_input DEFAULT_SETTINGS true
    [TAbstractFile.other "x"] rfl).1

/-- C4: on a successful clipboard write with a non-empty resolved path
list, the success notice is shown exactly when `showNotice` is enabled:
"Path copied" when one path was copied, "`<n>` paths copied" when
`n > 1`; with `showNotice` disabled the write is the only effect. -/
theorem copyPathsToClipboard_success_notice (s : CopyPathSettings)
    (files : List TAbstractFile) (h : collectAllPaths files ≠ []) :
    (s.showNotice = true → (collectAllPaths files).length = 1 →
      copyPathsToClipboard s true files =
        [Effect.clipboardWrite (formatPaths s (collectAllPaths files)),
         Effect.notice "Path copied"]) ∧
    (s.showNotice = true → 1 < (collectAllPaths files).length →
      copyPathsToClipboard s true files =
        [Effect.clipboardWrite (formatPaths s (collectAllPaths files)),
         Effect.notice (toString (collectAllPaths files).length ++ " paths copied")]) ∧
    (s.showNotice = false →
      copyPathsToClipboard s true files =
        [Effect.clipboardWrite (formatPaths s (collectAllPaths files))]) := by
  have hlen : ¬ (collectAllPaths files).length = 0 := by
    simpa [List.length_eq_zero] using h
  refine ⟨fun h1 h2 => ?_, fun h1 h2 => ?_, fun h1 => ?_⟩ <;>
    unfold copyPathsToClipboard copyPathsToClipboardS
  · simp [hlen, h1, h2]
  · have hne : ¬ (collectAllPaths files).length = 1 := by omega
    simp [hlen, h1, hne]
  · simp [hlen, h1]

theorem copyPathsToClipboard_success_notice_witness :
    copyPathsToClipboard DEFAULT_SETTINGS true [TAbstractFile.file "a.md"] =
      [Effect.clipboardWrite
        (formatPaths DEFAULT_SETTINGS (collectAllPaths [TAbstractFile.file "a.md"])),
       Effect.notice "Path copied"] :=
  (copyPathsToClipboard_success_notice DEFAULT_SETTINGS
    [TAbstractFile.file "a.md"] (by decide)).1 rfl rfl

/-- C5: whenever the clipboard write rejects (and at least one path was
resolved), `copyPathsToClipboard` shows "Failed to copy to clipboard"
regardless of `showNotice` (the settings value is universally
quantified), logs the error, and returns normally (the embedding is a
total function — the `catch` block swallows the rejection). -/
theorem copyPathsToClipboard_failure_notice (s : CopyPathSettings)
    (files : List TAbstractFile) (h : collectAllPaths files ≠ []) :
    copyPathsToClipboard s false files =
      [Effect.clipboardWrite (formatPaths s (collectAllPaths files)),
       Effect.notice "Failed to copy to clipboard", Effect.logError] := by
  have hlen : ¬ (collectAllPaths files).length = 0 := by
    simpa [List.length_eq_zero] using h
  unfold copyPathsToClipboard copyPathsToClipboardS
  simp [hlen]

theorem copyPathsToClipboard_failure_notice_witness :
    copyPathsToClipboard { showNotice := false, quoteStyle := QuoteStyle.double }
        false [TAbstractFile.file "a.md"] =
      [Effect.clipboardWrite
        (formatPaths { showNotice := false, quoteStyle := QuoteStyle.double }
          (collectAllPaths [TAbstractFile.file "a.md"])),
       Effect.notice "Failed to copy to clipboard", Effect.logError] :=
  copyPathsToClipboard_failure_notice
    { showNotice := false, quoteStyle := QuoteStyle.double }
    [TAbstractFile.file "a.md"] (by decide)

/-- C6: when no file is focused, `copyActiveFilePath` emits exactly the
"No active file" notice — no path collection, formatting or clipboard
write happens; when a file is focused, exactly that single file is
passed to `copyPathsToClipboard`. -/
theorem copyActiveFilePath_resolution (s : CopyPathSettings) (clipOk : Bool)
    (activeFile : Option String) :
    (activeFile = none →
      copyActiveFilePath s clipOk activeFile = [Effect.notice "No active file"] ∧
      ∀ t, Effect.clipboardWrite t ∉ copyActiveFilePath s clipOk activeFile) ∧
    (∀ p, activeFile = some p →
      copyActiveFilePath s clipOk activeFile =
        copyPathsToClipboard s clipOk [TAbstractFile.file p]) := by
  constructor
  · rintro rfl
    exact ⟨rfl, by simp [copyActiveFilePath, copyActiveFilePathS]⟩
  · rintro p rfl
    rfl

theorem copyActiveFilePath_resolution_witness :
    copyActiveFilePath DEFAULT_SETTINGS true none = [Effect.notice "No active file"] ∧
    copyActiveFilePath DEFAULT_SETTINGS true (some "a.md") =
      copyPathsToClipboard DEFAULT_SETTINGS true [TAbstractFile.file "a.md"] :=
  ⟨((copyActiveFilePath_resolution DEFAULT_SETTINGS true none).1 rfl).1,
   (copyActiveFilePath_resolution DEFAULT_SETTINGS true (some "a.md")).2 "a.md" rfl⟩

/-- C7: the selected-entry query returns the empty sequence whenever the
file-explorer view is absent or lacks the expected `fileItems` state, and
whenever the query yields zero entries `copySelectedFilesPaths` falls
back to the active-file resolution instead of signalling an error
itself. -/
theorem selectedFiles_defensive_and_fallback (explorer : Option ExplorerView)
    (vault : String → Option TAbstractFile) (s : CopyPathSettings)
    (clipOk : Bool) (activeFile : Option String) :
    getSelectedFilesFromExplorer none vault = [] ∧
    (∀ v : ExplorerView, v.fileItems = none →
      getSelectedFilesFromExplorer (some v) vault = []) ∧
    (getSelectedFilesFromExplorer explorer vault = [] →
      copySelectedFilesPaths s clipOk explorer vault activeFile =
        copyActiveFilePath s clipOk activeFile) := by
  refine ⟨rfl, fun v hv => ?_, fun h => ?_⟩
  · simp [getSelectedFilesFromExplorer, hv]
  · unfold copySelectedFilesPaths copySelectedFilesPathsS copyActiveFilePath
    rw [h]
    simp

theorem selectedFiles_defensive_and_fallback_witness :
    getSelectedFilesFromExplorer (some { fileItems := none }) (fun _ => none) = [] ∧
    copySelectedFilesPaths DEFAULT_SETTINGS true none (fun _ => none) (some "a.md") =
      copyActiveFilePath DEFAULT_SETTINGS true (some "a.md") :=
  ⟨(selectedFiles_defensive_and_fallback (some { fileItems := none })
      (fun _ => none) DEFAULT_SETTINGS true (some "a.md")).2.1
      { fileItems := none } rfl,
   (selectedFiles_defensive_and_fallback none (fun _ => none)
      DEFAULT_SETTINGS true (some "a.md")).2.2 rfl⟩

/-- C8: loading settings merges the stored record over the defaults, so
any missing field falls back to its default — a missing `quoteStyle`
becomes `single` and a missing `showNotice` becomes `true`; a wholly
absent blob yields exactly `DEFAULT_SETTINGS`. -/
theorem loadSettings_merges_defaults (stored : Option StoredData) :
    loadSettings none = DEFAULT_SETTINGS ∧
    (∀ d, stored = some d → loadSettings stored =
      { showNotice := d.showNotice.getD DEFAULT_SETTINGS.showNotice,
        quoteStyle := d.quoteStyle.getD DEFAULT_SETTINGS.quoteStyle }) ∧
    (∀ d, stored = some d → d.quoteStyle = none →
      (loadSettings stored).quoteStyle = QuoteStyle.single) ∧
    (∀ d, stored = some d → d.showNotice = none →
      (loadSettings stored).showNotice = true) := by
  refine ⟨rfl, ?_, ?_, ?_⟩
  · rintro d rfl
    rfl
  · rintro d rfl hq
    simp [loadSettings, hq, DEFAULT_SETTINGS]
  · rintro d rfl hn
    simp [loadSettings, hn, DEFAULT_SETTINGS]

theorem loadSettings_merges_defaults_witness :
    (loadSettings (some { showNotice := none, quoteStyle := none })).quoteStyle =
      QuoteStyle.single ∧
    (loadSettings (some { showNotice := none, quoteStyle := none })).showNotice =
      true :=
  ⟨(loadSettings_merges_defaults
      (some { showNotice := none, quoteStyle := none })).2.2.1
      { showNotice := none, quoteStyle := none } rfl rfl,
   (loadSettings_merges_defaults
      (some { showNotice := none, quoteStyle := none })).2.2.2
      { showNotice := none, quoteStyle := none } rfl rfl⟩

/-- C10: every copy command leaves the in-memory settings unchanged, on
success and on every error path; the settings fields are written only by
the two settings-UI change handlers, each of which updates exactly its
own field.  (`collectAllPaths` and `formatPaths` are pure functions of
their inputs and touch no state at all.) -/
theorem copy_commands_preserve_settings (st : PluginState) (clipOk : Bool)
    (files : List TAbstractFile) (explorer : Option ExplorerView)
    (vault : String → Option TAbstractFile) (activeFile : Option String)
    (b : Bool) (q : QuoteStyle) :
    (copyPathsToClipboardS st clipOk files).2 = st ∧
    (copyActiveFilePathS st clipOk activeFile).2 = st ∧
    (copySelectedFilesPathsS st clipOk explorer vault activeFile).2 = st ∧
    (showNoticeOnChange st b).settings =
      { st.settings with showNotice := b } ∧
    (quoteStyleOnChange st q).settings =
      { st.settings with quoteStyle := q } := by
  refine ⟨copyPathsToClipboardS_snd st clipOk files,
    copyActiveFilePathS_snd st clipOk activeFile, ?_, rfl, rfl⟩
  unfold copySelectedFilesPathsS
  by_cases h : (getSelectedFilesFromExplorer explorer vault).length > 0 <;>
    simp [h, copyPathsToClipboardS_snd, copyActiveFilePathS_snd]

/-- Modelled from the spec (testable property §8): the syntactic
inversion procedure — scan a character list and split it on every
occurrence of the four-character separator quote, comma, space, quote.
`acc` holds the (reversed) characters of the segment being read. -/
def splitQuoted (q : Char) (l : List Char) (acc : List Char) : List (List Char) :=
  match l with
  | [] => [acc.reverse]
  | a :: b :: c :: d :: rest =>
    if a = q ∧ b = commaChar ∧ c = spaceChar ∧ d = q then
      acc.reverse :: splitQuoted q rest []
    else
      splitQuoted q (b :: c :: d :: rest) (a :: acc)
  | a :: rest => splitQuoted q rest (a :: acc)
termination_by l.length
decreasing_by all_goals simp <;> omega

/-- Modelled from the spec (testable property §8): "given the quote
char, splitting recovers P" — strip the outer quote characters and split
the remainder on the quote-comma-space-quote separator. -/
def recoverPaths (q : Char) (s : String) : List String :=
  (splitQuoted q ((s.data.drop 1).dropLast) []).map String.mk

theorem splitQuoted_sep (q : Char) (rest acc : List Char) :
    splitQuoted q (q :: commaChar :: spaceChar :: q :: rest) acc =
      acc.reverse :: splitQuoted q rest [] := by
  simp [splitQuoted]

theorem splitQuoted_cons_ne (q a : Char) (h : ¬ a = q) (l acc : List Char) :
    splitQuoted q (a :: l) acc = splitQuoted q l (a :: acc) := by
  rcases l with _ | ⟨b, _ | ⟨c, _ | ⟨d, rest⟩⟩⟩ <;>
    first
      | rfl
      | simp [splitQuoted, h]

theorem splitQuoted_append (q : Char) (p : List Char) (h : q ∉ p)
    (rest acc : List Char) :
    splitQuoted q (p ++ rest) acc = splitQuoted q rest (p.reverse ++ acc) := by
  induction p generalizing acc with
  | nil => simp
  | cons a p' ih =>
      have ha : ¬ a = q := fun e => h (e ▸ List.mem_cons_self a p')
      rw [List.cons_append, splitQuoted_cons_ne q a ha,
        ih (fun hm => h (List.mem_cons_of_mem a hm))]
      congr 1
      simp

theorem splitQuoted_intercalate (q : Char) (L : List (List Char))
    (hne : L ≠ []) (h : ∀ p ∈ L, q ∉ p) :
    splitQuoted q (List.intercalate [q, commaChar, spaceChar, q] L) [] = L := by
  induction L with
  | nil => exact absurd rfl hne
  | cons p L' ih =>
      cases L' with
      | nil =>
          have hi : List.intercalate [q, commaChar, spaceChar, q] [p] = p := by
            simp [List.intercalate, List.intersperse]
          rw [hi, ← List.append_nil p, splitQuoted_append q p (h p (by simp))]
          simp [splitQuoted]
      | cons p2 L'' =>
          rw [list_intercalate_cons _ _ _ (by simp)]
          have hshape :
              p ++ [q, commaChar, spaceChar, q] ++
                  List.intercalate [q, commaChar, spaceChar, q] (p2 :: L'') =
                p ++ (q :: commaChar :: spaceChar :: q ::
                  List.intercalate [q, commaChar, spaceChar, q] (p2 :: L'')) := by
            simp
          rw [hshape, splitQuoted_append q p (h p (by simp)), splitQuoted_sep,
            ih (by simp) (fun x hx => h x (List.mem_cons_of_mem _ hx))]
          simp

theorem intercalate_wrap (qc : Char) (L : List (List Char)) (h : L ≠ []) :
    List.intercalate [commaChar, spaceChar] (L.map (fun p => qc :: p ++ [qc])) =
      qc :: (List.intercalate [qc, commaChar, spaceChar, qc] L ++ [qc]) := by
  induction L with
  | nil => exact absurd rfl h
  | cons p L' ih =>
      cases L' with
      | nil => simp [List.intercalate, List.intersperse]
      | cons p2 L'' =>
          rw [List.map_cons, list_intercalate_cons _ _ _ (by simp),
            list_intercalate_cons _ _ _ (by simp), ih (by simp)]
          simp [List.append_assoc]

/-- C9: for every non-empty path list and quote style such that no path
contains the selected quote character or the comma-space separator
substring, `formatPaths` is syntactically invertible: stripping the
outer quote characters and splitting on the quote-comma-space-quote
separator recovers exactly the input paths. -/
theorem formatPaths_invertible (s : CopyPathSettings) (paths : List String)
    (h1 : paths ≠ [])
    (h2 : ∀ p ∈ paths, quoteCharOf s.quoteStyle ∉ p.data)
    (h3 : ∀ p ∈ paths, ¬ [commaChar, spaceChar] <:+: p.data) :
    recoverPaths (quoteCharOf s.quoteStyle) (formatPaths s paths) = paths := by
  unfold recoverPaths
  rw [formatPaths_data]
  have hmap : paths.map
      (fun p => quoteCharOf s.quoteStyle :: p.data ++ [quoteCharOf s.quoteStyle]) =
      (paths.map String.data).map
        (fun p => quoteCharOf s.quoteStyle :: p ++ [quoteCharOf s.quoteStyle]) := by
    rw [List.map_map]
    rfl
  rw [hmap, intercalate_wrap _ _ (by simpa using h1)]
  rw [List.drop_one, List.tail_cons, List.dropLast_concat]
  rw [splitQuoted_intercalate _ _ (by simpa using h1)
    (fun x hx => by
      rcases List.mem_map.mp hx with ⟨p, hp, rfl⟩
      exact h2 p hp)]
  rw [List.map_map]
  have hid : (String.mk ∘ String.data) = id := funext fun p => rfl
  rw [hid, List.map_id]

theorem formatPaths_invertible_witness :
    recoverPaths (quoteCharOf QuoteStyle.single)
        (formatPaths { showNotice := true, quoteStyle := QuoteStyle.single }
          ["a/b.md", "c/d.md"]) = ["a/b.md", "c/d.md"] :=
  formatPaths_invertible { showNotice := true, quoteStyle := QuoteStyle.single }
    ["a/b.md", "c/d.md"] (by decide) (by decide) (by decide)
